import Mathlib

/-!
Verification of the gulp build pipeline (`gulpfile.js/build.js`): the static
collector that routes files into ZIP archives, the Travis-gated artifact
transport in `setupBuild` / `fetchArtifacts` / `buildPages`, the archive flush
completion signal, and the error handling of the `_sass` stream.

Strings are modelled as Lean `String`; the JavaScript string operations used by
the source (`includes`, `endsWith`, `indexOf`, `slice`, `replace` with a string
pattern) are embedded as functions on the underlying character lists with
JavaScript semantics (first-occurrence search, `-1` sentinel arithmetic).
-/

namespace Build

/-- First index at which `sub` occurs in `l`, like JavaScript `indexOf`
(restricted to a found/not-found `Option` instead of the `-1` sentinel).
`subIndex l [] = some 0`, matching `indexOf` of the empty string. -/
def subIndex : List Char → List Char → Option Nat
  | _, [] => some 0
  | [], _ :: _ => none
  | c :: rest, d :: ds =>
    if (d :: ds).isPrefixOf (c :: rest) then some 0
    else (subIndex rest (d :: ds)).map (· + 1)

/-- JavaScript `s.includes(sub)`: true iff `indexOf` finds an occurrence. -/
def jsIncludes (s sub : String) : Bool :=
  (subIndex s.data sub.data).isSome

/-- JavaScript `s.endsWith(sub)`. -/
def jsEndsWith (s sub : String) : Bool :=
  sub.data.isSuffixOf s.data

/-- JavaScript `s.slice(0, n)` for a nonnegative bound `n`. -/
def jsSlice (s : String) (n : Nat) : String :=
  ⟨s.data.take n⟩

/-- JavaScript `s.replace(sub, '')` with a plain-string pattern: remove the
first occurrence of `sub` from `s`; if `sub` does not occur, `s` unchanged. -/
def jsReplaceFirst (s sub : String) : String :=
  match subIndex s.data sub.data with
  | none => s
  | some i => ⟨s.data.take i ++ s.data.drop (i + sub.data.length)⟩

/-- The archive-suffix marker used by `collectStatics` (source line 271/277). -/
def zipMarker : String := ".zip"

/-- A vinyl file entry as seen by the `through.obj` transform in
`collectStatics`: `relative` is `file.relative` (path relative to the glob
base), `isDir` is `file.stat.isDirectory()`, `contents` the file payload.
`file.path` is the absolute path, reconstructed as `base ++ "/" ++ relative`. -/
structure FileEntry where
  relative : String
  isDir : Bool
  contents : String
deriving DecidableEq, Repr

/-- Absolute path of an entry (`file.path`) for glob base `base`. -/
def FileEntry.path (base : String) (f : FileEntry) : String :=
  base ++ "/" ++ f.relative

/-- A pending archive: the sequence of `(entryName, payload)` members appended
to one `archiver` instance, in append order. -/
abbrev PendingArchive := List (String × String)

/-- Lookup in an association list keyed by strings. -/
def lookupAssoc {α : Type} : List (String × α) → String → Option α
  | [], _ => none
  | (k, v) :: rest, k' => if k = k' then some v else lookupAssoc rest k'

/-- Update (or append) a key in an association list, preserving the position
of an existing key, like assignment to a JavaScript object property. -/
def updateAssoc {α : Type} : List (String × α) → String → α → List (String × α)
  | [], k, v => [(k, v)]
  | (k', v') :: rest, k, v =>
    if k' = k then (k, v) :: rest else (k', v') :: updateAssoc rest k v

/-- Entry-name sanitization performed by the external `archiver` library on
`append` (its `sanitizePath` strips leading path separators); the library is
not part of this repository, so only the separator stripping relevant to the
names produced by `collectStatics` is modelled. -/
def sanitizeName (s : String) : String :=
  ⟨s.data.dropWhile (· = '/')⟩

/-- State of one `collectStatics` run: the files pushed through to
`gulp.dest` (passthrough copies, in stream order) and the `archives` object
mapping a target archive path to its pending archive. -/
structure CollectState where
  written : List FileEntry
  archives : List (String × PendingArchive)
deriving DecidableEq, Repr

/-- The `relativePath` computed at source line 279:
`file.relative.slice(0, file.relative.indexOf('.zip') + 4)`.  When the marker
does not occur in `file.relative`, `indexOf` is `-1` and the slice bound is
`3`, exactly as in JavaScript. -/
def zipRelativePath (relative : String) : String :=
  match subIndex relative.data zipMarker.data with
  | some i => jsSlice relative (i + 4)
  | none => jsSlice relative 3

/-- One step of the `through.obj` transform of `collectStatics`
(source lines 269-299), processing a single file entry:
skip placeholder directories ending in `.zip`; route `.zip`-interior paths to
the pending archive for their `relativePath`, appending the payload only for
non-directories with a nonempty remaining path; push everything else through
to the destination. -/
def step (base : String) (st : CollectState) (f : FileEntry) : CollectState :=
  if f.isDir && jsEndsWith (f.path base) zipMarker then st
  else if jsIncludes (f.path base) zipMarker && !jsEndsWith (f.path base) zipMarker then
    let relativePath := zipRelativePath f.relative
    let archive := (lookupAssoc st.archives relativePath).getD []
    let filePath := jsReplaceFirst f.relative relativePath
    let archive :=
      if !f.isDir && filePath ≠ "" then archive ++ [(sanitizeName filePath, f.contents)]
      else archive
    { st with archives := updateAssoc st.archives relativePath archive }
  else { st with written := st.written ++ [f] }

/-- A full `collectStatics` classification pass over the source sequence,
starting from the fresh, function-scoped empty `archives` object created at
source line 264. -/
def collect (base : String) (entries : List FileEntry) : CollectState :=
  entries.foldl (step base) ⟨[], []⟩

/-- The member that an entry appends to a pending archive, if any:
`some (targetArchivePath, entryName, payload)` exactly when the member branch
of `step` performs an `archive.append` (source lines 286-288), `none`
otherwise.  Mirrors the branch structure of `step`. -/
def memberAppend (base : String) (f : FileEntry) : Option (String × String × String) :=
  if f.isDir && jsEndsWith (f.path base) zipMarker then none
  else if jsIncludes (f.path base) zipMarker && !jsEndsWith (f.path base) zipMarker then
    let relativePath := zipRelativePath f.relative
    let filePath := jsReplaceFirst f.relative relativePath
    if !f.isDir && filePath ≠ "" then some (relativePath, sanitizeName filePath, f.contents)
    else none
  else none

/-- Declarative per-archive projection of a source sequence: the members bound
for archive `tap`, in source-sequence order. -/
def membersOf (base : String) (entries : List FileEntry) (tap : String) : PendingArchive :=
  entries.filterMap fun f =>
    match memberAppend base f with
    | some (k, n, c) => if k = tap then some (n, c) else none
    | none => none

/-! ### The archive flush and its completion signal (source lines 301-322) -/

/-- Settlement state of a JavaScript promise. -/
inductive PromiseState
  | resolved
  | pending
  | rejected (msg : String)
deriving DecidableEq, Repr

/-- An event emitted by the write stream of one archive
(`contents.pipe(archive)` at line 312): either the stream closes, or it
errors with a message. -/
inductive StreamEv
  | closeEv
  | errorEv (msg : String)
deriving DecidableEq, Repr

/-- The promise built for one archive write at source lines 311-316: its
executor registers a single handler, on the `close` event, which resolves it.
No handler is registered for the `error` event, so no event ever rejects the
promise; a stream that errors without closing leaves it pending forever. -/
def writePromise (events : List StreamEv) : PromiseState :=
  if events.contains StreamEv.closeEv then PromiseState.resolved else PromiseState.pending

/-- JavaScript `Promise.all`: rejected with the first rejection if any,
resolved when all constituents are resolved, otherwise pending. -/
def promiseAll (ps : List PromiseState) : PromiseState :=
  match ps.find? (fun p => match p with | PromiseState.rejected _ => true | _ => false) with
  | some p => p
  | none => if ps.all (· = PromiseState.resolved) then PromiseState.resolved else PromiseState.pending

/-- Settlement of `await Promise.all(writes)` at source line 319, which gates
the `done()` completion callback of `collectStatics`: one event list per
pending archive write. -/
def flushSettle (writes : List (List StreamEv)) : PromiseState :=
  promiseAll (writes.map writePromise)

/-! ### Travis-gated artifact transport (`setupBuild`, `fetchArtifacts`,
`buildPages`, source lines 177-254) -/

/-- Per-run build context: whether the run is on Travis (the distributed CI
flag, `travis.onTravis()`), and the opaque `travis.build.number` and
`travis.build.job` identifiers, absent outside CI. -/
structure TravisCtx where
  onTravis : Bool
  buildNumber : Option String
  jobId : Option String
deriving DecidableEq, Repr

/-- JavaScript template-literal interpolation of a possibly-undefined value:
an absent value is stringified as the text `undefined`. -/
def jsShow : Option String → String
  | some s => s
  | none => "undefined"

/-- The Google Cloud Storage bucket prefix (source line 40). -/
def TRAVIS_GCS_PATH : String := "gs://amp-dev-ci/travis/"

/-- The remote key the setup archive is uploaded to (source lines 207-208). -/
def setupRemoteKey (buildNumber : Option String) : String :=
  TRAVIS_GCS_PATH ++ jsShow buildNumber ++ "/setup.tar.gz"

/-- Local path of the per-job pages archive (source line 249). -/
def pagesArchive (jobId : Option String) : String :=
  "build/pages-" ++ jsShow jobId ++ ".tar.gz"

/-- The remote key the pages archive is uploaded to (source lines 251-252). -/
def pagesRemoteKey (buildNumber jobId : Option String) : String :=
  TRAVIS_GCS_PATH ++ jsShow buildNumber ++ "/pages-" ++ jsShow jobId ++ ".tar.gz"

/-- The remote source downloaded by `fetchArtifacts` (source line 220). -/
def fetchRemoteSrc (buildNumber : Option String) : String :=
  TRAVIS_GCS_PATH ++ jsShow buildNumber

/-- A command issued by a stage: either a local shell step, or one of the
artifact-transport operations (packing an archive with tar, uploading or
downloading with gsutil, unpacking every fetched archive). -/
inductive Cmd
  | shellCmd (line : String)
  | packCmd (archivePath : String) (paths : List String)
  | uploadCmd (localPath remoteKey : String)
  | downloadCmd (remoteKey localPath : String)
  | unpackAllCmd
deriving DecidableEq, Repr

/-- The paths archived at build setup time (source lines 181-188). -/
def SETUP_STORED_PATHS : List String :=
  ["./pages/content/", "./dist/", "./boilerplate/dist/", "./playground/dist/",
   "./.cache/", "./examples/static/samples/samples.json"]

/-- The sequence of commands issued by `setupBuild` (source lines 177-210):
lint and the local builds always run; the pack and upload of the setup
archive run only on Travis. -/
def setupBuildCmds (ctx : TravisCtx) : List Cmd :=
  [Cmd.shellCmd "npm run lint:node",
   Cmd.shellCmd "npm run build:playground",
   Cmd.shellCmd "node build.js",
   Cmd.shellCmd "samplesBuilder.build",
   Cmd.shellCmd "importAll"]
  ++ (if ctx.onTravis then
        [Cmd.shellCmd "mkdir -p build",
         Cmd.packCmd "build/setup.tar.gz" SETUP_STORED_PATHS,
         Cmd.uploadCmd "build/setup.tar.gz" (setupRemoteKey ctx.buildNumber)]
      else [])

/-- The sequence of commands issued by `fetchArtifacts` (source lines
217-223): the build directory is always created; download and unpack of the
fetched archives run only on Travis. -/
def fetchArtifactsCmds (ctx : TravisCtx) : List Cmd :=
  [Cmd.shellCmd "mkdir -p build"]
  ++ (if ctx.onTravis then
        [Cmd.downloadCmd (fetchRemoteSrc ctx.buildNumber) "build", Cmd.unpackAllCmd]
      else [])

/-- The sequence of commands issued by `buildPages` (source lines 230-254):
Grow deploy and the page transformer always run; the pack and upload of the
per-job pages archive run only on Travis. -/
def buildPagesCmds (ctx : TravisCtx) : List Cmd :=
  [Cmd.shellCmd "grow deploy --noconfirm --threaded",
   Cmd.shellCmd "pageTransformer.start"]
  ++ (if ctx.onTravis then
        [Cmd.packCmd (pagesArchive ctx.jobId) ["./dist/pages"],
         Cmd.uploadCmd (pagesArchive ctx.jobId) (pagesRemoteKey ctx.buildNumber ctx.jobId)]
      else [])

/-- Whether a command is an artifact-transport operation (pack, upload,
download or unpack), as opposed to a purely local shell step. -/
def isTransport : Cmd → Bool
  | Cmd.shellCmd _ => false
  | _ => true

/-- Remote blob-store contents as a key-to-object association; executing a
command list updates the remote only at `uploadCmd` commands. -/
def runRemote : List (String × String) → List Cmd → List (String × String)
  | r, [] => r
  | r, Cmd.uploadCmd l k :: rest => runRemote (updateAssoc r k l) rest
  | r, _ :: rest => runRemote r rest

/-! ### ArtifactStore pack/upload/fetch/unpack (spec section 4.3)

The archiving and transport themselves are performed by the external `tar`
and `gsutil` processes invoked through `sh` at source lines 206-208, 220-221
and 250-252; that code is not part of this repository, so the operations are
modelled from the spec. -/

/-- A filesystem as a finite path-to-bytes association. -/
abbrev FileSystem := List (String × String)

/-- Modelled from the spec: an Artifact is a packed bundle with a remote key
and the packed path-to-bytes entries (spec section 3, the `tar` archive of
source line 206). -/
structure Artifact where
  remoteKey : String
  entries : List (String × String)
deriving DecidableEq, Repr

/-- Modelled from the spec: `pack(paths, format) -> Artifact` is best-effort
over the listed paths — paths missing from the filesystem are simply omitted
(spec section 4.3; the `tar cfj` invocation of source line 206). -/
def pack (key : String) (paths : List String) (fs : FileSystem) : Artifact :=
  ⟨key, paths.filterMap fun p => (lookupAssoc fs p).map fun b => (p, b)⟩

/-- Modelled from the spec: `upload(artifact)` stores the artifact at its
remote key, overwriting any previous object (spec sections 4.3 and 6; the
`gsutil cp` invocation of source line 207). -/
def uploadArtifact (store : List (String × List (String × String))) (a : Artifact) :
    List (String × List (String × String)) :=
  updateAssoc store a.remoteKey a.entries

/-- Modelled from the spec: `fetch(remoteKey)` retrieves the artifact stored
at the key, or nothing when the key does not exist (spec section 4.3; the
`gsutil cp -r` invocation of source line 220). -/
def fetchArtifact (store : List (String × List (String × String))) (key : String) :
    Option Artifact :=
  (lookupAssoc store key).map fun es => ⟨key, es⟩

/-- Modelled from the spec: `unpack(artifact)` extracts additively into the
filesystem with last-write-wins semantics on collisions, deleting nothing
(spec section 4.3; the `tar xf` invocation of source line 221). -/
def unpackArtifact (a : Artifact) (fs : FileSystem) : FileSystem :=
  a.entries.foldl (fun acc e => updateAssoc acc e.1 e.2) fs

/-! ### Stream error handling: `_sass` (lines 82-96) and the page
transformer promise (lines 237-245) -/

/-- An item flowing through a gulp stream: a transformed payload, or a
transform error. -/
inductive StreamItem
  | dataItem (payload : String)
  | errItem (msg : String)
deriving DecidableEq, Repr

/-- Outcome of the `_sass` task: payloads written to the CSS destination,
errors logged to the console, and whether the task failed. -/
structure SassOutcome where
  written : List String
  logged : List String
  taskFailed : Bool
deriving DecidableEq, Repr

/-- The `_sass` pipeline with its error handler (source lines 88-95): each
payload is piped through to `gulp.dest`; on the first transform error the
handler logs the error to the console and emits `end`, terminating the
stream gracefully — the task completes without failing, and items after the
error are not processed. -/
def runSass : List StreamItem → SassOutcome
  | [] => ⟨[], [], false⟩
  | StreamItem.dataItem s :: rest =>
    let r := runSass rest
    ⟨s :: r.written, r.logged, r.taskFailed⟩
  | StreamItem.errItem e :: _ => ⟨[], [e], false⟩

/-- The promise wrapping the page-transformer stream in `buildPages` (source
lines 237-245): `end` resolves it and `error` rejects it, so a transform
error there does fail the stage. -/
def pageStreamPromise : List StreamItem → PromiseState
  | [] => PromiseState.resolved
  | StreamItem.dataItem _ :: rest => pageStreamPromise rest
  | StreamItem.errItem e :: _ => PromiseState.rejected e

/-! ### Two successive collector runs (the function-scoped archives map,
source line 264) -/

/-- Two successive invocations of `collectStatics`: each invocation executes
source line 264 anew, so each fold starts from its own fresh empty state. -/
def collectTwice (base : String) (e1 e2 : List FileEntry) : CollectState × CollectState :=
  (List.foldl (step base) ⟨[], []⟩ e1, List.foldl (step base) ⟨[], []⟩ e2)

/-- Hypothetical process-wide-singleton variant for contrast: the second run
starts from the archives map left behind by the first run. -/
def collectSharedSecond (base : String) (e1 e2 : List FileEntry) : CollectState :=
  List.foldl (step base) ⟨[], (collect base e1).archives⟩ e2

/-! ### Concrete demonstration inputs -/

/-- Glob base used by the concrete examples (the `.zip` marker does not occur
in the base paths `pages/static` and `examples/static` of lines 267-268). -/
def demoBase : String := "/ws/pages/static"

/-- The input of the spec's archive test: a placeholder directory and two
files inside the archive subtree. -/
def demoArchiveInput : List FileEntry :=
  [⟨"a.zip", true, ""⟩, ⟨"a.zip/x.txt", false, "hi"⟩, ⟨"a.zip/y.txt", false, "yo"⟩]




theorem lookupAssoc_updateAssoc_self {α : Type} (m : List (String × α)) (k : String) (v : α) :
    lookupAssoc (updateAssoc m k v) k = some v := by
  induction m with
  | nil => simp [updateAssoc, lookupAssoc]
  | cons hd tl ih =>
    obtain ⟨k', v'⟩ := hd
    by_cases h : k' = k
    · simp [updateAssoc, h, lookupAssoc]
    · simp [updateAssoc, h, lookupAssoc, ih]

theorem lookupAssoc_updateAssoc_other {α : Type} (m : List (String × α)) (k k' : String) (v : α)
    (h : k ≠ k') :
    lookupAssoc (updateAssoc m k v) k' = lookupAssoc m k' := by
  induction m with
  | nil => simp [updateAssoc, lookupAssoc, h]
  | cons hd tl ih =>
    obtain ⟨q, w⟩ := hd
    by_cases hq : q = k
    · simp [updateAssoc, hq, lookupAssoc, h]
    · simp [updateAssoc, hq, lookupAssoc, ih]

theorem take_isPrefixOf (l : List Char) (k : Nat) : (l.take k).isPrefixOf l = true := by
  induction l generalizing k with
  | nil => cases k <;> simp [List.isPrefixOf]
  | cons c rest ih =>
    cases k with
    | zero => simp [List.isPrefixOf]
    | succ k => simp [List.isPrefixOf, ih]

theorem subIndex_take_self (l : List Char) (k : Nat) : subIndex l (l.take k) = some 0 := by
  cases l with
  | nil => simp [subIndex]
  | cons c rest =>
    cases k with
    | zero => simp [subIndex]
    | succ k => simp [subIndex, take_isPrefixOf]

theorem drop_min_length (l : List Char) (k : Nat) : l.drop (min k l.length) = l.drop k := by
  rcases Nat.le_total k l.length with h | h
  · rw [min_eq_left h]
  · rw [min_eq_right h, List.drop_eq_nil_of_le h, List.drop_eq_nil_of_le le_rfl]

theorem jsReplaceFirst_take (s : String) (k : Nat) :
    jsReplaceFirst s (jsSlice s k) = ⟨s.data.drop k⟩ := by
  unfold jsReplaceFirst jsSlice
  rw [subIndex_take_self]
  simp only [List.take_zero, List.nil_append, Nat.zero_add, List.length_take]
  exact congrArg String.mk (drop_min_length s.data k)

theorem isPrefixOf_self_append (xs ys : List Char) : xs.isPrefixOf (xs ++ ys) = true := by
  induction xs with
  | nil => simp [List.isPrefixOf]
  | cons c rest ih => simp [List.isPrefixOf, ih]

theorem subIndex_append_isSome (t sub : List Char) : (subIndex (t ++ sub) sub).isSome = true := by
  induction t with
  | nil =>
    cases sub with
    | nil => simp [subIndex]
    | cons d ds => simp [subIndex, isPrefixOf_self_append]
  | cons c rest ih =>
    cases sub with
    | nil => simp [subIndex]
    | cons d ds =>
      simp only [List.cons_append, subIndex]
      split
      · simp
      · simpa using ih

theorem jsIncludes_of_jsEndsWith (s sub : String) (h : jsEndsWith s sub = true) :
    jsIncludes s sub = true := by
  unfold jsEndsWith at h
  obtain ⟨t, ht⟩ := List.isSuffixOf_iff_suffix.mp h
  unfold jsIncludes
  rw [← ht]
  exact subIndex_append_isSome t sub.data

theorem foldl_passthrough (base : String) (entries : List FileEntry) (w : List FileEntry)
    (h : ∀ f ∈ entries, jsIncludes (f.path base) zipMarker = false) :
    List.foldl (step base) ⟨w, []⟩ entries = ⟨w ++ entries, []⟩ := by
  induction entries generalizing w with
  | nil => simp
  | cons f rest ih =>
    have hf := h f (by simp)
    have hrest : ∀ g ∈ rest, jsIncludes (g.path base) zipMarker = false := by
      intro g hg
      exact h g (by simp [hg])
    have hend : jsEndsWith (f.path base) zipMarker = false := by
      cases he : jsEndsWith (f.path base) zipMarker
      · rfl
      · rw [jsIncludes_of_jsEndsWith _ _ he] at hf
        exact absurd hf (by simp)
    have hstep : step base ⟨w, []⟩ f = ⟨w ++ [f], []⟩ := by
      simp [step, hf, hend]
    rw [List.foldl_cons, hstep, ih _ hrest]
    simp

theorem step_archives (base : String) (st : CollectState) (f : FileEntry) (tap : String) :
    (lookupAssoc (step base st f).archives tap).getD []
      = (lookupAssoc st.archives tap).getD []
        ++ (match memberAppend base f with
            | some (k, n, c) => if k = tap then [(n, c)] else []
            | none => []) := by
  unfold step memberAppend
  by_cases h1 : (f.isDir && jsEndsWith (f.path base) zipMarker) = true
  · simp [h1]
  · by_cases h2 : (jsIncludes (f.path base) zipMarker && !jsEndsWith (f.path base) zipMarker) = true
    · by_cases h4 : zipRelativePath f.relative = tap
      · subst h4
        by_cases h3 : f.isDir = false ∧ ¬jsReplaceFirst f.relative (zipRelativePath f.relative) = ""
        · simp [h1, h2, h3, lookupAssoc_updateAssoc_self]
        · simp [h1, h2, h3, lookupAssoc_updateAssoc_self]
      · by_cases h3 : f.isDir = false ∧ ¬jsReplaceFirst f.relative (zipRelativePath f.relative) = ""
        · simp [h1, h2, h3, h4, lookupAssoc_updateAssoc_other _ _ _ _ h4]
        · simp [h1, h2, h3, h4, lookupAssoc_updateAssoc_other _ _ _ _ h4]
    · simp [h1, h2]

theorem foldl_members (base : String) (entries : List FileEntry) (st : CollectState)
    (tap : String) :
    (lookupAssoc (List.foldl (step base) st entries).archives tap).getD []
      = (lookupAssoc st.archives tap).getD [] ++ membersOf base entries tap := by
  induction entries generalizing st with
  | nil => simp [membersOf]
  | cons f rest ih =>
    rw [List.foldl_cons, ih, step_archives]
    rw [List.append_assoc]
    congr 1
    simp only [membersOf, List.filterMap_cons]
    cases hma : memberAppend base f with
    | none => simp
    | some kv =>
      obtain ⟨k, n, c⟩ := kv
      by_cases hk : k = tap
      · simp [hk]
      · simp [hk]

theorem lookupAssoc_foldl_update_not_mem (entries : List (String × String)) (acc : FileSystem)
    (p : String) (h : ∀ w, (p, w) ∉ entries) :
    lookupAssoc (entries.foldl (fun a e => updateAssoc a e.1 e.2) acc) p = lookupAssoc acc p := by
  induction entries generalizing acc with
  | nil => rfl
  | cons e rest ih =>
    obtain ⟨q, c⟩ := e
    have hq : q ≠ p := by
      intro hqp
      exact h c (by simp [hqp])
    rw [List.foldl_cons, ih _ (fun w hw => h w (by simp [hw]))]
    exact lookupAssoc_updateAssoc_other _ _ _ _ hq

theorem lookupAssoc_foldl_update (entries : List (String × String)) (acc : FileSystem)
    (p : String) (v : String) (hmem : (p, v) ∈ entries)
    (hall : ∀ w, (p, w) ∈ entries → w = v) :
    lookupAssoc (entries.foldl (fun a e => updateAssoc a e.1 e.2) acc) p = some v := by
  induction entries generalizing acc with
  | nil => cases hmem
  | cons e rest ih =>
    obtain ⟨q, c⟩ := e
    by_cases hrest : ∃ w, (p, w) ∈ rest
    · obtain ⟨w, hw⟩ := hrest
      have hwv : w = v := hall w (by simp [hw])
      rw [List.foldl_cons]
      exact ih _ (hwv ▸ hw) (fun u hu => hall u (by simp [hu]))
    · have hqp : q = p ∧ c = v := by
        rcases List.mem_cons.mp hmem with hhead | htail
        · have h1 := congrArg Prod.fst hhead
          have h2 := congrArg Prod.snd hhead
          exact ⟨h1.symm, h2.symm⟩
        · exact absurd ⟨v, htail⟩ hrest
      rw [List.foldl_cons,
        lookupAssoc_foldl_update_not_mem _ _ _ (fun w hw => hrest ⟨w, hw⟩)]
      rw [hqp.1, hqp.2]
      exact lookupAssoc_updateAssoc_self _ _ _

theorem writePromise_eq_resolved (evs : List StreamEv) :
    (decide (writePromise evs = PromiseState.resolved)) = evs.contains StreamEv.closeEv := by
  unfold writePromise
  by_cases hc : evs.contains StreamEv.closeEv = true
  · simp [hc]
  · simp [hc]

theorem flushSettle_spec (writes : List (List StreamEv)) :
    (flushSettle writes = PromiseState.resolved
      ↔ writes.all (fun evs => evs.contains StreamEv.closeEv) = true)
    ∧ ∀ e, flushSettle writes ≠ PromiseState.rejected e := by
  unfold flushSettle promiseAll
  have hfind : (writes.map writePromise).find?
      (fun p => match p with | PromiseState.rejected _ => true | _ => false) = none := by
    rw [List.find?_eq_none]
    intro x hx
    obtain ⟨evs, _, rfl⟩ := List.mem_map.mp hx
    unfold writePromise
    by_cases hc : evs.contains StreamEv.closeEv = true
    · rw [if_pos hc]
      simp
    · rw [if_neg hc]
      simp
  rw [hfind]
  have hall : ((writes.map writePromise).all (· = PromiseState.resolved) = true)
      ↔ (writes.all (fun evs => evs.contains StreamEv.closeEv) = true) := by
    rw [List.all_eq_true, List.all_eq_true]
    constructor
    · intro h evs hmem
      have hres := h (writePromise evs) (List.mem_map.mpr ⟨evs, hmem, rfl⟩)
      exact writePromise_eq_resolved evs ▸ hres
    · intro h x hx
      obtain ⟨evs, hmem, rfl⟩ := List.mem_map.mp hx
      rw [writePromise_eq_resolved]
      exact h evs hmem
  by_cases hb : (writes.map writePromise).all (· = PromiseState.resolved) = true
  · have hrhs := hall.mp hb
    constructor
    · rw [if_pos hb]
      exact iff_of_true rfl hrhs
    · intro e
      rw [if_pos hb]
      simp
  · have hrhs : ¬ writes.all (fun evs => evs.contains StreamEv.closeEv) = true :=
      fun hc => hb (hall.mpr hc)
    constructor
    · rw [if_neg hb]
      exact iff_of_false (by simp) hrhs
    · intro e
      rw [if_neg hb]
      simp

/-- C2: an entry whose path contains the marker before its end is an archive
member: the target archive path is the prefix of the relative path up through
the marker, the entry name is the remainder, the pending archive is looked up
or lazily created, and the contents are appended exactly when the entry is not
a directory and has a nonempty entry name; on the dir-plus-two-files input one
archive at a.zip with entries x.txt and y.txt is produced and nothing is
written outside it. -/
theorem archiveMemberClassification (base : String) (st : CollectState) (f : FileEntry)
    (i : Nat)
    (h1 : jsIncludes (f.path base) zipMarker = true)
    (h2 : jsEndsWith (f.path base) zipMarker = false)
    (h3 : subIndex f.relative.data zipMarker.data = some i) :
    step base st f =
      { st with archives := (updateAssoc st.archives (jsSlice f.relative (i + 4))
          ((lookupAssoc st.archives (jsSlice f.relative (i + 4))).getD []
            ++ (if !f.isDir && (⟨f.relative.data.drop (i + 4)⟩ : String) ≠ ""
                then [(sanitizeName ⟨f.relative.data.drop (i + 4)⟩, f.contents)] else []))) }
    ∧ collect demoBase demoArchiveInput
      = ⟨[], [("a.zip", [("x.txt", "hi"), ("y.txt", "yo")])]⟩ := by
  constructor
  · have hskip : (f.isDir && jsEndsWith (f.path base) zipMarker) = false := by
      rw [h2]
      simp
    have hmem : (jsIncludes (f.path base) zipMarker && !jsEndsWith (f.path base) zipMarker)
        = true := by
      rw [h1, h2]
      rfl
    have hrp : zipRelativePath f.relative = jsSlice f.relative (i + 4) := by
      unfold zipRelativePath
      rw [h3]
    have hfp : jsReplaceFirst f.relative (jsSlice f.relative (i + 4))
        = ⟨f.relative.data.drop (i + 4)⟩ := jsReplaceFirst_take f.relative (i + 4)
    simp only [step, hskip, hmem, hrp, hfp, Bool.false_eq_true, if_false, if_true]
    split <;> simp
  · rfl

/-- C2 witness: the classification theorem applied to the file entry
a.zip/x.txt against the empty collector state. -/
theorem archiveMemberClassification_witness :
    jsIncludes (FileEntry.path demoBase ⟨"a.zip/x.txt", false, "hi"⟩) zipMarker = true
    ∧ jsEndsWith (FileEntry.path demoBase ⟨"a.zip/x.txt", false, "hi"⟩) zipMarker = false
    ∧ subIndex (FileEntry.relative ⟨"a.zip/x.txt", false, "hi"⟩).data zipMarker.data = some 1
    ∧ (step demoBase ⟨[], []⟩ ⟨"a.zip/x.txt", false, "hi"⟩
        = ⟨[], [("a.zip", [("x.txt", "hi")])]⟩
      ∧ collect demoBase demoArchiveInput
        = ⟨[], [("a.zip", [("x.txt", "hi"), ("y.txt", "yo")])]⟩) := by
  have h := archiveMemberClassification demoBase ⟨[], []⟩ ⟨"a.zip/x.txt", false, "hi"⟩ 1
    (by decide) (by decide) (by decide)
  exact ⟨by decide, by decide, by decide, h.1.trans (by decide), h.2⟩

/-- C1 counterexample: an archive write whose stream errors without closing
leaves the completion promise pending — it is not rejected with the write
error, contrary to the claim. -/
theorem collectCompletionErrorPending :
    flushSettle [[StreamEv.errorEv "EACCES"]] = PromiseState.pending
    ∧ PromiseState.pending ≠ PromiseState.rejected "EACCES" := by
  exact ⟨by decide, by decide⟩

/-- C1 (amended): the completion signal of collectStatics resolves exactly
when every archive write stream has emitted close (all writes joined), and is
never rejected, whatever the write outcomes: the write promises register no
error handler, so a write error cannot surface as a rejection. -/
theorem collectCompletionNoRejection (writes : List (List StreamEv)) :
    (flushSettle writes = PromiseState.resolved
      ↔ writes.all (fun evs => evs.contains StreamEv.closeEv) = true)
    ∧ ∀ e, flushSettle writes ≠ PromiseState.rejected e :=
  flushSettle_spec writes

/-- C3 counterexample: on an input holding only the placeholder directory
a.zip, collect produces no archive at all — the archives map has no entry for
a.zip, no empty archive is written. -/
theorem placeholderAloneProducesNoArchive :
    collect demoBase [⟨"a.zip", true, ""⟩] = ⟨[], []⟩
    ∧ lookupAssoc (collect demoBase [⟨"a.zip", true, ""⟩]).archives "a.zip" = none := by
  exact ⟨by decide, by decide⟩

/-- C3 (amended): a placeholder directory entry ending in the marker is
skipped entirely — it is not materialized and registers nothing, so a pending
archive for its path exists only if some other entry maps to it. -/
theorem placeholderSkipIsNoop (base : String) (st : CollectState) (f : FileEntry)
    (h1 : f.isDir = true) (h2 : jsEndsWith (f.path base) zipMarker = true) :
    step base st f = st := by
  simp [step, h1, h2]

/-- C3 witness: the skip theorem applied to the placeholder directory entry. -/
theorem placeholderSkipIsNoop_witness :
    (FileEntry.isDir ⟨"a.zip", true, ""⟩ = true)
    ∧ jsEndsWith (FileEntry.path demoBase ⟨"a.zip", true, ""⟩) zipMarker = true
    ∧ step demoBase ⟨[], []⟩ ⟨"a.zip", true, ""⟩ = ⟨[], []⟩ :=
  ⟨by decide, by decide, placeholderSkipIsNoop demoBase ⟨[], []⟩ ⟨"a.zip", true, ""⟩
    (by decide) (by decide)⟩

/-- C4: pack, upload, fetch by the remote key, unpack round trip — for any
set of paths that exist in the source filesystem, fetching the uploaded
artifact returns it intact and unpacking reconstructs the content of every
packed path byte-identically, into any destination filesystem. -/
theorem artifactRoundTrip (P : List String) (fs fs2 : FileSystem)
    (store : List (String × List (String × String))) (key : String)
    (h : ∀ p ∈ P, (lookupAssoc fs p).isSome = true) :
    fetchArtifact (uploadArtifact store (pack key P fs)) key = some (pack key P fs)
    ∧ ∀ p ∈ P, lookupAssoc (unpackArtifact (pack key P fs) fs2) p = lookupAssoc fs p := by
  constructor
  · unfold fetchArtifact uploadArtifact
    rw [show (pack key P fs).remoteKey = key from rfl, lookupAssoc_updateAssoc_self]
    rfl
  · intro p hp
    obtain ⟨b, hb⟩ := Option.isSome_iff_exists.mp (h p hp)
    have hmem : (p, b) ∈ (pack key P fs).entries := by
      unfold pack
      simp only [List.mem_filterMap]
      exact ⟨p, hp, by rw [hb]; rfl⟩
    have hall : ∀ w, (p, w) ∈ (pack key P fs).entries → w = b := by
      intro w hw
      unfold pack at hw
      simp only [List.mem_filterMap] at hw
      obtain ⟨q, hq, hqe⟩ := hw
      cases hlq : lookupAssoc fs q with
      | none =>
        rw [hlq] at hqe
        cases hqe
      | some c =>
        rw [hlq] at hqe
        have hqp : q = p := congrArg Prod.fst (Option.some.inj hqe)
        have hcw : c = w := congrArg Prod.snd (Option.some.inj hqe)
        rw [hqp] at hlq
        rw [hb] at hlq
        rw [← hcw]
        exact (Option.some.inj hlq).symm
    rw [hb]
    unfold unpackArtifact
    exact lookupAssoc_foldl_update _ _ _ _ hmem hall

/-- C4 witness: the round-trip theorem applied to a one-file path set. -/
theorem artifactRoundTrip_witness :
    (∀ p ∈ ["f.txt"], (lookupAssoc [("f.txt", "data")] p).isSome = true)
    ∧ (fetchArtifact (uploadArtifact [] (pack "k" ["f.txt"] [("f.txt", "data")])) "k"
        = some (pack "k" ["f.txt"] [("f.txt", "data")])
      ∧ ∀ p ∈ ["f.txt"],
          lookupAssoc (unpackArtifact (pack "k" ["f.txt"] [("f.txt", "data")]) []) p
            = lookupAssoc [("f.txt", "data")] p) :=
  ⟨by decide, artifactRoundTrip ["f.txt"] [("f.txt", "data")] [] [] "k" (by decide)⟩

/-- C5 counterexample: with no build number in the context, the remote key is
derived anyway — the undefined value is interpolated into the key, no
configuration error is raised. -/
theorem missingBuildNumberKey :
    setupRemoteKey none = "gs://amp-dev-ci/travis/undefined/setup.tar.gz" := by
  decide

/-- C5 (amended): remote key derivation never fails on an absent build
number; the absent value is stringified as undefined, so the derived keys
collide with those of a literal build number named undefined, and on Travis
the setup archive is uploaded to that default-derived key. -/
theorem missingBuildNumberSilentDefault :
    setupRemoteKey none = setupRemoteKey (some "undefined")
    ∧ pagesRemoteKey none none = pagesRemoteKey (some "undefined") (some "undefined")
    ∧ fetchRemoteSrc none = fetchRemoteSrc (some "undefined")
    ∧ Cmd.uploadCmd "build/setup.tar.gz" "gs://amp-dev-ci/travis/undefined/setup.tar.gz"
        ∈ setupBuildCmds ⟨true, none, none⟩ := by
  refine ⟨rfl, rfl, rfl, ?_⟩
  simp [setupBuildCmds, setupRemoteKey, TRAVIS_GCS_PATH, jsShow]

/-- C6: off Travis, no stage performs any artifact-transport operation — the
command sequences of setupBuild, fetchArtifacts and buildPages contain no
pack, upload, download or unpack command, and executing all three stages
leaves any remote store unchanged. -/
theorem noTransportOffTravis (ctx : TravisCtx) (h : ctx.onTravis = false) :
    (setupBuildCmds ctx).filter isTransport = []
    ∧ (fetchArtifactsCmds ctx).filter isTransport = []
    ∧ (buildPagesCmds ctx).filter isTransport = []
    ∧ ∀ r, runRemote r (setupBuildCmds ctx ++ fetchArtifactsCmds ctx ++ buildPagesCmds ctx)
        = r := by
  refine ⟨?_, ?_, ?_, fun r => ?_⟩ <;>
    simp [setupBuildCmds, fetchArtifactsCmds, buildPagesCmds, h, isTransport, runRemote]

/-- C6 witness: the no-transport theorem applied to a non-Travis context. -/
theorem noTransportOffTravis_witness :
    (TravisCtx.onTravis ⟨false, none, none⟩ = false)
    ∧ ((setupBuildCmds ⟨false, none, none⟩).filter isTransport = []
      ∧ (fetchArtifactsCmds ⟨false, none, none⟩).filter isTransport = []
      ∧ (buildPagesCmds ⟨false, none, none⟩).filter isTransport = []
      ∧ ∀ r, runRemote r (setupBuildCmds ⟨false, none, none⟩
          ++ fetchArtifactsCmds ⟨false, none, none⟩ ++ buildPagesCmds ⟨false, none, none⟩)
          = r) :=
  ⟨rfl, noTransportOffTravis ⟨false, none, none⟩ rfl⟩

/-- C7: entries whose paths never involve the marker are pure passthrough —
collect writes every one of them verbatim, in order, and produces zero
archives. -/
theorem passthroughVerbatim (base : String) (entries : List FileEntry)
    (h : ∀ f ∈ entries, jsIncludes (f.path base) zipMarker = false) :
    collect base entries = ⟨entries, []⟩ := by
  unfold collect
  have hfold := foldl_passthrough base entries [] h
  simpa using hfold

/-- C7 witness: the passthrough theorem applied to a two-entry marker-free
input. -/
theorem passthroughVerbatim_witness :
    (∀ f ∈ [(⟨"css/app.css", false, "body"⟩ : FileEntry), ⟨"img", true, ""⟩],
      jsIncludes (f.path demoBase) zipMarker = false)
    ∧ collect demoBase [⟨"css/app.css", false, "body"⟩, ⟨"img", true, ""⟩]
      = ⟨[⟨"css/app.css", false, "body"⟩, ⟨"img", true, ""⟩], []⟩ :=
  ⟨by decide, passthroughVerbatim demoBase
    [⟨"css/app.css", false, "body"⟩, ⟨"img", true, ""⟩] (by decide)⟩

/-- C8: for every input sequence and target archive path, the members
accumulated in that pending archive are exactly the members the source
sequence maps to it, in source-sequence order. -/
theorem sameArchiveOrderMatchesSource (base : String) (entries : List FileEntry)
    (tap : String) :
    (lookupAssoc (collect base entries).archives tap).getD [] = membersOf base entries tap := by
  unfold collect
  have hfold := foldl_members base entries ⟨[], []⟩ tap
  simpa [lookupAssoc] using hfold

/-- C9: a transform error during style compilation is logged and ends the
sass stream gracefully — items before the error are still written, the task
does not fail; by contrast the page-transformer stream promise in buildPages
rejects on a stream error, making that stage fail. -/
theorem sassErrorEndsGracefully (pre : List String) (e : String) (rest : List StreamItem) :
    runSass (pre.map StreamItem.dataItem ++ StreamItem.errItem e :: rest) = ⟨pre, [e], false⟩
    ∧ runSass (pre.map StreamItem.dataItem) = ⟨pre, [], false⟩
    ∧ pageStreamPromise (pre.map StreamItem.dataItem ++ StreamItem.errItem e :: rest)
        = PromiseState.rejected e := by
  induction pre with
  | nil => exact ⟨rfl, rfl, rfl⟩
  | cons sal tl ih =>
    refine ⟨?_, ?_, ?_⟩ <;> simp [runSass, pageStreamPromise, ih.1, ih.2.1, ih.2.2]

/-- C10: each collectStatics invocation folds from its own fresh empty
archives map, so the second of two runs is independent of whatever the first
run processed; under the hypothetical shared singleton map the second run
would instead still see the first run's pending archives. -/
theorem freshArchivesPerRun (base : String) (e1 e1' e2 : List FileEntry) :
    (collectTwice base e1 e2).2 = collect base e2
    ∧ (collectTwice base e1 e2).2 = (collectTwice base e1' e2).2
    ∧ (collectTwice demoBase demoArchiveInput []).2.archives = []
    ∧ (collectSharedSecond demoBase demoArchiveInput []).archives ≠ [] := by
  refine ⟨rfl, rfl, rfl, ?_⟩
  decide

end Build
